import Mathlib

/-!
# Verification development for the Hardhat Ignition `verify` module

A shallow embedding of `packages/core/src/verify.ts` (the verification-payload
pipeline of Hardhat Ignition) together with theorems about it.

Modelling conventions:

* JavaScript objects used as string-keyed maps (`sources`, `linkReferences`,
  `libraries`, `settings.libraries`) are modelled as association lists
  `List (String × _)` with unique keys; JS property reads are `alookup`, JS
  property writes are `aset`/`asetInner` (update-in-place of an existing key,
  append for a fresh key — matching JS insertion-order semantics).
* Fallible code (thrown `IgnitionError`s and `assertIgnitionInvariant`
  failures) is modelled with `Except`.
* The recursive import traversal `getImportSourceNames` has no cycle guard in
  the source, so the JS recursion can be non-terminating.  The embedding is
  fuel-indexed: `.error .outOfFuel` for every fuel value corresponds to
  divergence of the source recursion, `.error (.missingSource s)` corresponds
  to the `TypeError` the source throws when `buildInfo.input.sources[s]` is
  absent.
* External collaborators that are not part of `verify.ts` are explicit
  parameters: the solidity-analyzer `analyze` and the constructor-argument
  encoder live in a `VerifyContext`, the built-in chain table is a list
  parameter, and the `FileDeploymentLoader` is modelled from the spec as an
  immutable persisted store that is re-read on every call.
* Node's `path.dirname` / `path.join` (POSIX flavour, the Node default on
  Linux/macOS) and `String.replaceAll("\\", "/")` are modelled at the
  character level on the path shapes that occur as Solidity source names
  (relative slash-separated paths without trailing slashes).
-/

namespace IgnitionVerify

/-! ## Association-list primitives (JS object model) -/

/-- JS property read `obj[k]`: first entry with the given key. -/
def alookup {α : Type} (l : List (String × α)) (k : String) : Option α :=
  match l with
  | [] => none
  | (k', v) :: rest => if k' = k then some v else alookup rest k

/-- JS property write `obj[k] = v`: overwrite the existing entry in place,
or append a new entry at the end (JS insertion order). -/
def aset {α : Type} (l : List (String × α)) (k : String) (v : α) :
    List (String × α) :=
  match l with
  | [] => [(k, v)]
  | (k', v') :: rest => if k' = k then (k', v) :: rest else (k', v') :: aset rest k v

/-- JS nested property write `obj[s][k] = v` for an outer key `s` that is
already present (after `??=` has run); a no-op when `s` is absent, which is
unreachable in the modelled code. -/
def asetInner {α : Type} (l : List (String × List (String × α))) (s k : String)
    (v : α) : List (String × List (String × α)) :=
  match l with
  | [] => []
  | (k', inner) :: rest =>
    if k' = s then (k', aset inner k v) :: rest else (k', inner) :: asetInner rest s k v

/-! ## Node POSIX path model -/

/-- Split a character list at `'/'` (used to model POSIX path segmenting). -/
def splitOnSlash : List Char → List (List Char)
  | [] => [[]]
  | '/' :: rest => [] :: splitOnSlash rest
  | c :: rest =>
    match splitOnSlash rest with
    | [] => [[c]]
    | seg :: segs => (c :: seg) :: segs

/-- Join segments with `'/'`. -/
def intercalateSlash : List (List Char) → List Char
  | [] => []
  | [seg] => seg
  | seg :: rest => seg ++ '/' :: intercalateSlash rest

/-- One step of POSIX path normalization over a reversed stack of kept
segments: drops empty and `.` segments, `..` pops a poppable segment. -/
def normStep (stack : List (List Char)) (seg : List Char) : List (List Char) :=
  if seg = [] then stack
  else if seg = ['.'] then stack
  else if seg = ['.', '.'] then
    match stack with
    | [] => [['.', '.']]
    | top :: rest => if top = ['.', '.'] then seg :: stack else rest
  else seg :: stack

/-- Model of Node POSIX `path.join(a, b)` for the relative, slash-separated
paths that occur as Solidity source names. -/
def pathJoin (a b : String) : String :=
  let segs := splitOnSlash a.data ++ splitOnSlash b.data
  match (segs.foldl normStep []).reverse with
  | [] => "."
  | kept => String.mk (intercalateSlash kept)

/-- Model of Node POSIX `path.dirname` for relative, slash-separated paths
without trailing slashes. -/
def pathDirname (s : String) : String :=
  match (splitOnSlash s.data).dropLast with
  | [] => "."
  | segs => String.mk (intercalateSlash segs)

/-- Model of `String.replaceAll("\\", "/")`. -/
def replaceBackslashes (s : String) : String :=
  String.mk (s.data.map (fun c => if c = '\\' then '/' else c))

/-- The character class `[\/|\\]` of the source regex `/^\.\.?[\/|\\]/`.
Note that `|` is a literal member of a JS regex character class. -/
def relClass (c : Char) : Bool :=
  c = '/' || c = '|' || c = '\\'

/-- Model of the source test `/^\.\.?[\/|\\]/.test(i)`: a leading `.` or `..`
followed by one of `/`, `|`, `\`. -/
def testRelative (i : String) : Bool :=
  match i.data with
  | c₁ :: c₂ :: rest =>
    c₁ = '.' &&
      (relClass c₂ ||
        (c₂ = '.' &&
          (match rest with
           | c₃ :: _ => relClass c₃
           | [] => false)))
  | _ => false

/-- Per-import resolution step of `getImportSourceNames`:
`path.join(path.dirname(sourceName), i).replaceAll("\\", "/")` when the
regex matches, the import identifier unchanged otherwise. -/
def resolveImportSource (sourceName i : String) : String :=
  if testRelative i then replaceBackslashes (pathJoin (pathDirname sourceName) i)
  else i

/-! ## Data model -/

/-- `ChainConfig` from `types/verify.ts`: identity key is `chainId`. -/
structure ChainConfig where
  network : String
  chainId : Nat
  apiURL : String
  browserURL : String
deriving DecidableEq

/-- `ExecutionStatus` from `internal/execution/types/execution-state.ts`. -/
inductive ExecutionStatus
  | started
  | timeout
  | success
  | failed
  | held
deriving DecidableEq

/-- Outcome stored in `DeploymentExecutionState.result`; `success` carries the
deployed address, `failed` stands for every non-`SUCCESS` result kind. -/
inductive ExecutionResult
  | success (address : String)
  | failed
deriving DecidableEq

/-- Mapping source path → library name → deployed address
(`SourceToLibraryToAddress` from `types/verify.ts`). -/
abbrev SourceToLibraryToAddress : Type :=
  List (String × List (String × String))

/-- The solc `settings` object of a compiler input.  `rest` stands for the
settings fields this model does not interpret (optimizer, outputSelection,
remappings, ...); `libraries` is the optional library-address sub-mapping the
code overwrites. -/
structure Settings where
  rest : String
  libraries : Option SourceToLibraryToAddress
deriving DecidableEq

/-- `CompilerInput`: the `sources` values are modelled by their `content`
string directly. -/
structure CompilerInput where
  language : String
  sources : List (String × String)
  settings : Settings
deriving DecidableEq

/-- `BuildInfo`: the fields `verify.ts` reads (`solcLongVersion`, `input`). -/
structure BuildInfo where
  solcLongVersion : String
  input : CompilerInput
deriving DecidableEq

/-- `Artifact`: the fields `verify.ts` reads.  `linkReferences` keeps, per
source path, only the referenced library names — the byte-offset placeholder
data of the real artifact is never read by the code. -/
structure Artifact where
  sourceName : String
  linkReferences : List (String × List String)
deriving DecidableEq

/-- One persisted deployment-execution record
(`DeploymentExecutionState`), restricted to the fields `verify.ts` reads. -/
structure DeploymentExecutionState where
  id : String
  artifactId : String
  contractName : String
  constructorArgs : List String
  libraries : List (String × String)
  status : ExecutionStatus
  result : Option ExecutionResult
deriving DecidableEq

/-- Modelled from the spec: an execution record in the deployment state is
either of kind "deployment execution" or of one of the other kinds (call,
send, static call, ...), which `findExecutionStatesByType` filters out. -/
inductive ExecutionState
  | deployment (s : DeploymentExecutionState)
  | other
deriving DecidableEq

/-- The deployment state: `chainId` plus the execution records in
insertion/creation order. -/
structure DeploymentState where
  chainId : Nat
  executionStates : List ExecutionState
deriving DecidableEq

/-- The `VerifyInfo` payload.  `sourceCode` is kept as the (pruned/augmented)
`CompilerInput` value itself; the source serializes it with the injective
`JSON.stringify` as its last step. -/
structure VerifyInfo where
  address : String
  compilerVersion : String
  sourceCode : CompilerInput
  name : String
  args : String
deriving DecidableEq

/-- `VerifyResult = [ChainConfig, VerifyInfo]`. -/
abbrev VerifyResult : Type :=
  ChainConfig × VerifyInfo

/-- The error taxonomy of the pipeline (`ERRORS.VERIFY.*` plus invariant
failures raised during per-record conversion). -/
inductive VerifyError
  | uninitializedDeployment
  | unsupportedChain (chainId : Nat)
  | noContractsDeployed
  | conversion (msg : String)
deriving DecidableEq

/-- Modelled from the spec: the external collaborators of §6 that `verify.ts`
the imports of a source text — the solidity-analyzer's `analyze` (ordered
identifiers) and `encodeDeploymentArguments` (artifact + stored constructor
argument values → encoded byte string). -/
structure VerifyContext where
  analyze : String → List String
  encodeDeploymentArguments : Artifact → List String → String

/-- Modelled from the spec: `FileDeploymentLoader` — the persisted deployment
store.  `readBuildInfo`/`loadArtifact` re-read and re-parse the persisted
JSON on every call, so every call returns a fresh value of the stored,
immutable data. -/
structure FileDeploymentLoader where
  buildInfos : List (String × BuildInfo)
  artifacts : List (String × Artifact)
deriving DecidableEq

/-- Modelled from the spec: `FileDeploymentLoader.readBuildInfo` — a fresh
read of the persisted build info for an artifact id. -/
def readBuildInfo (loader : FileDeploymentLoader) (artifactId : String) :
    Except String BuildInfo :=
  match alookup loader.buildInfos artifactId with
  | none => .error ("Could not find build info for " ++ artifactId)
  | some bi => .ok bi

/-- Modelled from the spec: `FileDeploymentLoader.loadArtifact` — a fresh
read of the persisted artifact for an artifact id. -/
def loadArtifact (loader : FileDeploymentLoader) (artifactId : String) :
    Except String Artifact :=
  match alookup loader.artifacts artifactId with
  | none => .error ("Could not find artifact for " ++ artifactId)
  | some a => .ok a

/-! ## Import closure (`getImportSourceNames`) -/

/-- Failure of the fuel-indexed import traversal: `missingSource` models the
`TypeError` thrown by `buildInfo.input.sources[sourceName].content` on an
absent key; `outOfFuel` at every fuel bound models divergence of the
unguarded source recursion. -/
inductive ClosureErr
  | missingSource (sourceName : String)
  | outOfFuel
deriving DecidableEq

/-- Render a `ClosureErr` as the conversion-level error string. -/
def closureErrMsg : ClosureErr → String
  | .missingSource s => "TypeError: cannot read content of missing source " ++ s
  | .outOfFuel => "import traversal does not terminate"

/-- `importSources.flatMap (i => getImportSourceNames(i, buildInfo))` with an
explicit recursor argument, collecting the per-import recursive results. -/
def goMany (rec : String → Except ClosureErr (List String)) :
    List String → Except ClosureErr (List (List String))
  | [] => .ok []
  | i :: rest =>
    match rec i with
    | .error e => .error e
    | .ok r =>
      match goMany rec rest with
      | .error e => .error e
      | .ok rs => .ok (r :: rs)

/-- The body of `getImportSourceNames` for one source file, parameterized by
the recursive call: read the file's content, analyze its imports, resolve
each import identifier, and return the resolved imports followed by all
transitively discovered ones. -/
def closureStep (ctx : VerifyContext) (buildInfo : BuildInfo)
    (rec : String → Except ClosureErr (List String)) (sourceName : String) :
    Except ClosureErr (List String) :=
  match alookup buildInfo.input.sources sourceName with
  | none => .error (.missingSource sourceName)
  | some contractSource =>
    let importSources :=
      (ctx.analyze contractSource).map (resolveImportSource sourceName)
    match goMany rec importSources with
    | .error e => .error e
    | .ok rests => .ok (importSources ++ rests.flatten)

/-- Fuel-indexed `getImportSourceNames(sourceName, buildInfo)`.  The source
recursion has no cycle guard; runs of the source that terminate are exactly
the `.ok` values reached for some (hence every larger) fuel. -/
def getImportSourceNames (ctx : VerifyContext) (buildInfo : BuildInfo) :
    Nat → String → Except ClosureErr (List String)
  | 0 => fun _ => .error .outOfFuel
  | fuel + 1 => closureStep ctx buildInfo (getImportSourceNames ctx buildInfo fuel)

/-! ## Library resolution (`resolveLibraryInfoForArtifact`) -/

/-- The inner loop of `resolveLibraryInfoForArtifact` over the library names
of one `linkReferences` entry: `sourceToLibraryToAddress[sourceName] ??= {}`,
look up the deployed address, assert it exists, and write
`sourceToLibraryToAddress[sourceName][libName] = libraryAddress`. -/
def resolveInner (libraries : List (String × String)) (sourceName : String)
    (acc : SourceToLibraryToAddress) :
    List String → Except String SourceToLibraryToAddress
  | [] => .ok acc
  | libName :: rest =>
    let acc1 := if (alookup acc sourceName).isSome then acc else acc ++ [(sourceName, [])]
    match alookup libraries libName with
    | none => .error ("Could not find address for library " ++ libName)
    | some libraryAddress =>
      resolveInner libraries sourceName (asetInner acc1 sourceName libName libraryAddress) rest

/-- The outer loop of `resolveLibraryInfoForArtifact` over the entries of
`artifact.linkReferences`. -/
def resolveOuter (libraries : List (String × String))
    (acc : SourceToLibraryToAddress) :
    List (String × List String) → Except String SourceToLibraryToAddress
  | [] => .ok acc
  | (sourceName, refObj) :: rest =>
    match resolveInner libraries sourceName acc refObj with
    | .error e => .error e
    | .ok acc' => resolveOuter libraries acc' rest

/-- `resolveLibraryInfoForArtifact(artifact, libraries)`: build the
source → library → address mapping, failing on a missing address, and return
`null` (here `none`) when the built mapping has no entries. -/
def resolveLibraryInfoForArtifact (artifact : Artifact)
    (libraries : List (String × String)) :
    Except String (Option SourceToLibraryToAddress) :=
  match resolveOuter libraries [] artifact.linkReferences with
  | .error e => .error e
  | .ok m => if m.length = 0 then .ok none else .ok (some m)

/-- `prepareInputBasedOn(buildInfo, artifact, libraries)`: return the input
unchanged when resolution yields `null`, otherwise overwrite
`input.settings.libraries` with the resolved mapping. -/
def prepareInputBasedOn (buildInfo : BuildInfo) (artifact : Artifact)
    (libraries : List (String × String)) : Except String CompilerInput :=
  match resolveLibraryInfoForArtifact artifact libraries with
  | .error e => .error e
  | .ok none => .ok buildInfo.input
  | .ok (some sourceToLibraryAddresses) =>
    .ok { buildInfo.input with
            settings := { buildInfo.input.settings with
                            libraries := some sourceToLibraryAddresses } }

/-! ## Per-record conversion (`convertExStateToVerifyInfo`) -/

/-- The `includeUnrelatedContracts` branch of `convertExStateToVerifyInfo`:
when pruning, compute `[artifact.sourceName, ...getImportSourceNames(...)]`
and delete every `sourceCode.sources` entry whose key is not in that list. -/
def pruneSources (ctx : VerifyContext) (fuel : Nat) (buildInfo : BuildInfo)
    (artifact : Artifact) (sourceCode : CompilerInput)
    (includeUnrelatedContracts : Bool) : Except String CompilerInput :=
  if includeUnrelatedContracts then .ok sourceCode
  else
    match getImportSourceNames ctx buildInfo fuel artifact.sourceName with
    | .error e => .error (closureErrMsg e)
    | .ok closure =>
      let sourceNames := artifact.sourceName :: closure
      .ok { sourceCode with
              sources := sourceCode.sources.filter
                (fun kv => decide (kv.1 ∈ sourceNames)) }

/-- Model of `buildInfo.solcLongVersion.startsWith("v")` normalization. -/
def normalizeVersion (s : String) : String :=
  match s.data with
  | 'v' :: _ => s
  | _ => "v" ++ s

/-- `convertExStateToVerifyInfo(exState, deploymentLoader,
includeUnrelatedContracts)`: load build info and artifact, assert the
successful-result invariant, prepare the compiler input, prune unrelated
sources unless asked not to, and compose the `VerifyInfo`. -/
def convertExStateToVerifyInfo (ctx : VerifyContext) (fuel : Nat)
    (loader : FileDeploymentLoader) (exState : DeploymentExecutionState)
    (includeUnrelatedContracts : Bool) : Except String VerifyInfo :=
  match readBuildInfo loader exState.artifactId with
  | .error e => .error e
  | .ok buildInfo =>
    match loadArtifact loader exState.artifactId with
    | .error e => .error e
    | .ok artifact =>
      match exState.result with
      | some (ExecutionResult.success address) =>
        match prepareInputBasedOn buildInfo artifact exState.libraries with
        | .error e => .error e
        | .ok sourceCode0 =>
          match pruneSources ctx fuel buildInfo artifact sourceCode0
              includeUnrelatedContracts with
          | .error e => .error e
          | .ok sourceCode =>
            .ok { address := address
                  compilerVersion := normalizeVersion buildInfo.solcLongVersion
                  sourceCode := sourceCode
                  name := artifact.sourceName ++ ":" ++ exState.contractName
                  args := ctx.encodeDeploymentArguments artifact
                            exState.constructorArgs }
      | _ =>
        .error ("Deployment execution state " ++ exState.id ++
          " should have a successful result to retrieve address")

/-! ## The pipeline (`getVerificationInformation`) -/

/-- `resolveChainConfig(deploymentState, customChains)`: first entry of
`[...customChains, ...builtinChains]` whose `chainId` equals the
deployment's chain id.  The built-in chain table is an external read-only
list, passed as the first argument. -/
def resolveChainConfig (builtinChains : List ChainConfig)
    (deploymentState : DeploymentState) (customChains : List ChainConfig) :
    Except VerifyError ChainConfig :=
  match (customChains ++ builtinChains).find?
      (fun c => decide (c.chainId = deploymentState.chainId)) with
  | some c => .ok c
  | none => .error (.unsupportedChain deploymentState.chainId)

/-- Modelled from the spec: `findExecutionStatesByType(DEPLOYMENT_EXECUTION_STATE,
deploymentState)` — the records of kind "deployment execution", in the order
they appear in the deployment state. -/
def findDeploymentExecutionStates (s : DeploymentState) :
    List DeploymentExecutionState :=
  s.executionStates.filterMap
    (fun es =>
      match es with
      | .deployment d => some d
      | .other => none)

/-- The record selection of the pipeline: all records of kind "deployment
execution" whose `status === ExecutionStatus.SUCCESS`, in state order. -/
def successfulDeploymentRecords (s : DeploymentState) :
    List DeploymentExecutionState :=
  (findDeploymentExecutionStates s).filter
    (fun r => decide (r.status = ExecutionStatus.success))

/-- The `for ... yield` loop of the generator: convert each selected record
in order, stopping at the first conversion failure. -/
def runVerification (ctx : VerifyContext) (fuel : Nat)
    (loader : FileDeploymentLoader) (chainConfig : ChainConfig)
    (includeUnrelatedContracts : Bool) :
    List DeploymentExecutionState → Except VerifyError (List VerifyResult)
  | [] => .ok []
  | exState :: rest =>
    match convertExStateToVerifyInfo ctx fuel loader exState
        includeUnrelatedContracts with
    | .error e => .error (.conversion e)
    | .ok verifyInfo =>
      match runVerification ctx fuel loader chainConfig
          includeUnrelatedContracts rest with
      | .error e => .error e
      | .ok results => .ok ((chainConfig, verifyInfo) :: results)

/-- `getVerificationInformation(deploymentDir, customChains,
includeUnrelatedContracts)`.  `deploymentState?` is the result of
`loadDeploymentState` for the deployment directory and `loader` the
`FileDeploymentLoader` over the same directory; the lazily yielded sequence
of the source generator is modelled as the list of its elements (an `.error`
outcome yields the elements produced before the failure — none, for the
errors thrown before the loop). -/
def getVerificationInformation (ctx : VerifyContext) (fuel : Nat)
    (builtinChains : List ChainConfig) (deploymentState? : Option DeploymentState)
    (loader : FileDeploymentLoader) (customChains : List ChainConfig)
    (includeUnrelatedContracts : Bool) :
    Except VerifyError (List VerifyResult) :=
  match deploymentState? with
  | none => .error .uninitializedDeployment
  | some deploymentState =>
    match resolveChainConfig builtinChains deploymentState customChains with
    | .error e => .error e
    | .ok chainConfig =>
      let deploymentExStates := successfulDeploymentRecords deploymentState
      if deploymentExStates.length = 0 then .error .noContractsDeployed
      else
        runVerification ctx fuel loader chainConfig includeUnrelatedContracts
          deploymentExStates

/-! ## Spec-side definitions

Definitions written from the specification's words, to be compared with the
code-side definitions above. -/

/-- Decidable equality for `Except`, used to evaluate concrete runs. -/
instance {ε α : Type} [DecidableEq ε] [DecidableEq α] :
    DecidableEq (Except ε α) := fun x y =>
  match x, y with
  | .error e, .error e' =>
    if h : e = e' then isTrue (congrArg Except.error h)
    else isFalse (fun hc => h (Except.error.inj hc))
  | .ok a, .ok a' =>
    if h : a = a' then isTrue (congrArg Except.ok h)
    else isFalse (fun hc => h (Except.ok.inj hc))
  | .error _, .ok _ => isFalse (fun hc => Except.noConfusion hc)
  | .ok _, .error _ => isFalse (fun hc => Except.noConfusion hc)

/-- The classification stated by the claim: the import begins with `./` or
`../` in either path-separator style. -/
def specRelative (i : String) : Bool :=
  match i.data with
  | '.' :: '/' :: _ => true
  | '.' :: '\\' :: _ => true
  | '.' :: '.' :: '/' :: _ => true
  | '.' :: '.' :: '\\' :: _ => true
  | _ => false

/-- The amended classification: the import begins with `.` or `..` followed
by `/`, `\` or `|` (the literal members of the source regex's character
class `[\/|\\]`). -/
def specRelativeAmended (i : String) : Bool :=
  (["./", ".|", ".\\", "../", "..|", "..\\"] : List String).any
    (fun p => p.data.isPrefixOf i.data)

/-- The mapping the claim describes for library resolution: each
`linkReferences` source path that references at least one library name,
mapped to its library names, each mapped to its deployed address. -/
def resolvedLibraries (linkReferences : List (String × List String))
    (addrOf : String → String) : SourceToLibraryToAddress :=
  (linkReferences.filter (fun e => !e.2.isEmpty)).map
    (fun e => (e.1, e.2.map (fun ln => (ln, addrOf ln))))

/-! ## Concrete inputs used by witnesses and counterexamples -/

/-- Import lists of the example contracts, as the solidity-analyzer would
report them: `s/A.sol` (content `cA`) imports `./B.sol`; `s/B.sol` (content
`cB`) imports `C.sol` and `../D/E.sol`; other files import nothing. -/
def exAnalyze : String → List String := fun c =>
  if c = "cA" then ["./B.sol"]
  else if c = "cB" then ["C.sol", "../D/E.sol"]
  else []

/-- Example collaborator context: `exAnalyze`, and an encoder returning the
empty byte string. -/
def exCtx : VerifyContext :=
  { analyze := exAnalyze
    encodeDeploymentArguments := fun _ _ => "" }

/-- Example build info: the import-closure example files plus an unrelated
source file. -/
def exBI : BuildInfo :=
  { solcLongVersion := "0.8.19+commit.abc"
    input :=
      { language := "Solidity"
        sources := [("s/A.sol", "cA"), ("s/B.sol", "cB"), ("C.sol", "x"),
                    ("D/E.sol", "y"), ("Unrelated.sol", "z")]
        settings := { rest := "default", libraries := none } } }

/-- Example artifact for the contract in `s/A.sol`, with no link
references. -/
def exArt : Artifact :=
  { sourceName := "s/A.sol", linkReferences := [] }

/-- Example deployment loader storing `exBI`/`exArt` under artifact id
`a`. -/
def exLoader : FileDeploymentLoader :=
  { buildInfos := [("a", exBI)], artifacts := [("a", exArt)] }

/-- Example custom chain config with chain id 1. -/
def exCC : ChainConfig :=
  { network := "customnet", chainId := 1, apiURL := "api", browserURL := "browser" }

/-- Built-in chain config sharing chain id 1 with `exCC`. -/
def exBuiltin : ChainConfig :=
  { network := "builtinnet", chainId := 1, apiURL := "api2", browserURL := "browser2" }

/-- First successful example record, deployed at `0x1`. -/
def exRec1 : DeploymentExecutionState :=
  { id := "f1", artifactId := "a", contractName := "Foo", constructorArgs := []
    libraries := [], status := .success, result := some (.success "0x1") }

/-- Second successful example record for the same artifact id, deployed at
`0x2`. -/
def exRec2 : DeploymentExecutionState :=
  { id := "f2", artifactId := "a", contractName := "Bar", constructorArgs := []
    libraries := [], status := .success, result := some (.success "0x2") }

/-- A failed example record (never selected for verification). -/
def exRecFailed : DeploymentExecutionState :=
  { id := "f3", artifactId := "a", contractName := "Baz", constructorArgs := []
    libraries := [], status := .failed, result := some .failed }

/-- The `VerifyInfo` produced for `exRec1` with pruning disabled. -/
def exVI1 : VerifyInfo :=
  { address := "0x1", compilerVersion := "v0.8.19+commit.abc"
    sourceCode := exBI.input, name := "s/A.sol:Foo", args := "" }

/-- The `VerifyInfo` produced for `exRec2` with pruning disabled. -/
def exVI2 : VerifyInfo :=
  { address := "0x2", compilerVersion := "v0.8.19+commit.abc"
    sourceCode := exBI.input, name := "s/A.sol:Bar", args := "" }

/-- Deployment state with one failed deployment record and one record of
another kind. -/
def exStateNoSuccess : DeploymentState :=
  { chainId := 1, executionStates := [.deployment exRecFailed, .other] }

/-- Deployment state with two successful deployment records (sharing one
build info), one failed one, and one record of another kind. -/
def exStateTwo : DeploymentState :=
  { chainId := 1
    executionStates := [.deployment exRec1, .other, .deployment exRecFailed,
                        .deployment exRec2] }

/-- Import lists of the cyclic example: `A.sol` (content `cycA`) imports
`B.sol`, `B.sol` (content `cycB`) imports `A.sol`. -/
def cyclicAnalyze : String → List String := fun c =>
  if c = "cycA" then ["B.sol"]
  else if c = "cycB" then ["A.sol"]
  else []

/-- Collaborator context of the cyclic-import example. -/
def cyclicCtx : VerifyContext :=
  { analyze := cyclicAnalyze
    encodeDeploymentArguments := fun _ _ => "" }

/-- Build info whose import graph is the two-cycle `A.sol ↔ B.sol`. -/
def cyclicBI : BuildInfo :=
  { solcLongVersion := "0.8.19+commit.abc"
    input :=
      { language := "Solidity"
        sources := [("A.sol", "cycA"), ("B.sol", "cycB")]
        settings := { rest := "default", libraries := none } } }

/-- Artifact with the `Lib.sol`/`MathLib` link reference of the spec's
library-resolution example. -/
def exArtLib : Artifact :=
  { sourceName := "Lib.sol", linkReferences := [("Lib.sol", ["MathLib"])] }

/-- Deploy-time library addresses of the spec's library-resolution
example. -/
def exLibs : List (String × String) :=
  [("MathLib", "0xabc")]

/-- Artifact whose `linkReferences` has source entries but zero library
names in every inner mapping. -/
def exArtEmptyInner : Artifact :=
  { sourceName := "Lib.sol"
    linkReferences := [("Lib.sol", []), ("Other.sol", [])] }

/-! ## Association-list and list lemmas -/

theorem alookup_eq_none {α : Type} (l : List (String × α)) (k : String)
    (h : ∀ e ∈ l, e.1 ≠ k) : alookup l k = none := by
  induction l with
  | nil => rfl
  | cons e rest ih =>
    obtain ⟨k', v⟩ := e
    have hk : k' ≠ k := h (k', v) (List.mem_cons_self _ _)
    simp only [alookup, if_neg hk]
    exact ih (fun e he => h e (List.mem_cons_of_mem _ he))

theorem alookup_append_cons {α : Type} (pre post : List (String × α))
    (s : String) (v : α) (h : ∀ e ∈ pre, e.1 ≠ s) :
    alookup (pre ++ (s, v) :: post) s = some v := by
  induction pre with
  | nil => simp [alookup]
  | cons e rest ih =>
    obtain ⟨k', v'⟩ := e
    have hk : k' ≠ s := h (k', v') (List.mem_cons_self _ _)
    simp only [List.cons_append, alookup, if_neg hk]
    exact ih (fun e he => h e (List.mem_cons_of_mem _ he))

theorem alookup_isSome_iff {α : Type} (l : List (String × α)) (k : String) :
    (alookup l k).isSome = true ↔ k ∈ l.map Prod.fst := by
  induction l with
  | nil => simp [alookup]
  | cons e rest ih =>
    obtain ⟨k', v⟩ := e
    by_cases hk : k' = k
    · subst hk
      simp [alookup]
    · simp only [alookup, if_neg hk]
      rw [ih]
      simp only [List.map_cons, List.mem_cons]
      constructor
      · intro h
        exact Or.inr h
      · rintro (h | h)
        · exact absurd h.symm hk
        · exact h

theorem aset_absent {α : Type} (l : List (String × α)) (k : String) (v : α)
    (h : ∀ e ∈ l, e.1 ≠ k) : aset l k v = l ++ [(k, v)] := by
  induction l with
  | nil => rfl
  | cons e rest ih =>
    obtain ⟨k', v'⟩ := e
    have hk : k' ≠ k := h (k', v') (List.mem_cons_self _ _)
    simp only [aset, if_neg hk, List.cons_append, List.cons.injEq, true_and]
    exact ih (fun e he => h e (List.mem_cons_of_mem _ he))

theorem asetInner_append_cons {α : Type} (pre post : List (String × List (String × α)))
    (s k : String) (inner : List (String × α)) (v : α)
    (h : ∀ e ∈ pre, e.1 ≠ s) :
    asetInner (pre ++ (s, inner) :: post) s k v =
      pre ++ (s, aset inner k v) :: post := by
  induction pre with
  | nil => simp [asetInner]
  | cons e rest ih =>
    obtain ⟨k', inner'⟩ := e
    have hk : k' ≠ s := h (k', inner') (List.mem_cons_self _ _)
    simp only [List.cons_append, asetInner, if_neg hk, List.cons.injEq, true_and]
    exact ih (fun e he => h e (List.mem_cons_of_mem _ he))

theorem find?_split {α : Type} (p : α → Bool) :
    ∀ (l : List α) (c : α), l.find? p = some c →
      ∃ l1 l2, l = l1 ++ c :: l2 ∧ ∀ x ∈ l1, ¬p x = true := by
  intro l
  induction l with
  | nil => intro c h; simp [List.find?] at h
  | cons a rest ih =>
    intro c h
    by_cases ha : p a = true
    · rw [List.find?_cons_of_pos _ ha] at h
      exact ⟨[], rest, by simp [Option.some.inj h], by simp⟩
    · rw [List.find?_cons_of_neg _ ha] at h
      obtain ⟨l1, l2, hsplit, hl1⟩ := ih c h
      refine ⟨a :: l1, l2, by simp [hsplit], ?_⟩
      intro x hx
      rcases List.mem_cons.mp hx with hx | hx
      · rw [hx]; exact ha
      · exact hl1 x hx

theorem find?_isSome_of_mem {α : Type} (p : α → Bool) :
    ∀ (l : List α) (a : α), a ∈ l → p a = true → ∃ c, l.find? p = some c := by
  intro l
  induction l with
  | nil => intro a ha; simp at ha
  | cons b rest ih =>
    intro a ha hp
    by_cases hb : p b = true
    · exact ⟨b, List.find?_cons_of_pos _ hb⟩
    · rcases List.mem_cons.mp ha with ha | ha
      · subst ha; exact absurd hp hb
      · obtain ⟨c, hc⟩ := ih a ha hp
        exact ⟨c, by rw [List.find?_cons_of_neg _ hb]; exact hc⟩

/-! ## Claim theorems -/

/-- **C4.** For every deployment chain id and every pair of chain lists, the
resolver returns the first entry of `customChains ++ builtinChains` (scanning
custom entries before built-in ones, both in list order) whose `chainId`
equals the deployment's chain id; in particular, when both a custom and a
built-in entry match, the returned entry is a custom one. -/
theorem C4_chain_config_first_match (builtinChains customChains : List ChainConfig)
    (st : DeploymentState)
    (h : ∃ c ∈ customChains ++ builtinChains, c.chainId = st.chainId) :
    ∃ c l1 l2,
      resolveChainConfig builtinChains st customChains = .ok c ∧
      c.chainId = st.chainId ∧
      customChains ++ builtinChains = l1 ++ c :: l2 ∧
      (∀ x ∈ l1, x.chainId ≠ st.chainId) ∧
      ((∃ cc ∈ customChains, cc.chainId = st.chainId) → c ∈ customChains) := by
  obtain ⟨c0, hc0mem, hc0id⟩ := h
  obtain ⟨c, hfind⟩ :=
    find?_isSome_of_mem (fun c => decide (c.chainId = st.chainId)) _ c0 hc0mem
      (by simp [hc0id])
  obtain ⟨l1, l2, hsplit, hl1⟩ := find?_split _ _ c hfind
  refine ⟨c, l1, l2, ?_, ?_, hsplit, ?_, ?_⟩
  · simp [resolveChainConfig, hfind]
  · have := List.find?_some hfind
    simpa using this
  · intro x hx
    have := hl1 x hx
    simpa using this
  · rintro ⟨cc, hccmem, hccid⟩
    rcases List.append_eq_append_iff.mp hsplit with ⟨a', ha1, _⟩ | ⟨c', hc1, hc2⟩
    · exfalso
      have hccl1 : cc ∈ l1 := ha1 ▸ List.mem_append_left _ hccmem
      have := hl1 cc hccl1
      simp [hccid] at this
    · rcases c' with _ | ⟨c'', rest⟩
      · exfalso
        have hccl1 : cc ∈ l1 := by
          have : customChains = l1 := by simpa using hc1
          exact this ▸ hccmem
        have := hl1 cc hccl1
        simp [hccid] at this
      · have hc'' : c'' = c := by
          have := hc2
          simp only [List.cons_append] at this
          exact (List.cons.inj this).1.symm
        rw [hc1, hc'']
        exact List.mem_append_right _ (List.mem_cons_self _ _)

/-- Witness for C4: custom and built-in chains share chain id 1, the
resolver picks the custom entry. -/
theorem C4_chain_config_first_match_witness :
    ∃ c l1 l2,
      resolveChainConfig [exBuiltin] exStateTwo [exCC] = .ok c ∧
      c.chainId = exStateTwo.chainId ∧
      [exCC] ++ [exBuiltin] = l1 ++ c :: l2 ∧
      (∀ x ∈ l1, x.chainId ≠ exStateTwo.chainId) ∧
      ((∃ cc ∈ [exCC], cc.chainId = exStateTwo.chainId) → c ∈ [exCC]) :=
  C4_chain_config_first_match [exBuiltin] [exCC] exStateTwo
    ⟨exCC, by decide, by decide⟩

/-- **C8.** A deployment state that loads but has zero successful
deployment-execution records makes the pipeline fail with
`NoContractsDeployedError`, producing no output element (the chain id is
assumed to resolve, since `resolveChainConfig` runs first). -/
theorem C8_no_contracts_deployed (ctx : VerifyContext) (fuel : Nat)
    (builtinChains : List ChainConfig) (st : DeploymentState)
    (loader : FileDeploymentLoader) (customChains : List ChainConfig)
    (incl : Bool) (cc : ChainConfig)
    (hchain : resolveChainConfig builtinChains st customChains = .ok cc)
    (hempty : successfulDeploymentRecords st = []) :
    getVerificationInformation ctx fuel builtinChains (some st) loader
      customChains incl = .error .noContractsDeployed := by
  simp [getVerificationInformation, hchain, hempty]

/-- Witness for C8: a state whose only deployment record failed. -/
theorem C8_no_contracts_deployed_witness :
    getVerificationInformation exCtx 1 [exBuiltin] (some exStateNoSuccess)
      exLoader [exCC] false = .error .noContractsDeployed :=
  C8_no_contracts_deployed exCtx 1 [exBuiltin] exStateNoSuccess exLoader [exCC]
    false exCC (by decide) (by decide)

theorem resolveOuter_all_empty (libraries : List (String × String)) :
    ∀ (lr : List (String × List String)) (acc : SourceToLibraryToAddress),
      (∀ e ∈ lr, e.2 = ([] : List String)) →
      resolveOuter libraries acc lr = .ok acc := by
  intro lr
  induction lr with
  | nil => intro acc _; rfl
  | cons e rest ih =>
    intro acc h
    obtain ⟨s, libs⟩ := e
    have hlibs : libs = [] := h (s, libs) (List.mem_cons_self _ _)
    subst hlibs
    simp only [resolveOuter, resolveInner]
    exact ih acc (fun e he => h e (List.mem_cons_of_mem _ he))

/-- **C10.** An artifact whose `linkReferences` has source entries but only
empty inner mappings resolves to `null`, exactly like an artifact with no
link references, and the compiler input is returned unchanged. -/
theorem C10_empty_inner_mappings (a : Artifact)
    (libraries : List (String × String)) (bi : BuildInfo)
    (hempty : ∀ e ∈ a.linkReferences, e.2 = ([] : List String)) :
    resolveLibraryInfoForArtifact a libraries = .ok none ∧
    prepareInputBasedOn bi a libraries = .ok bi.input := by
  have h := resolveOuter_all_empty libraries a.linkReferences [] hempty
  constructor
  · simp [resolveLibraryInfoForArtifact, h]
  · simp [prepareInputBasedOn, resolveLibraryInfoForArtifact, h]

/-- Witness for C10: two source entries, both with zero library names. -/
theorem C10_empty_inner_mappings_witness :
    resolveLibraryInfoForArtifact exArtEmptyInner exLibs = .ok none ∧
    prepareInputBasedOn exBI exArtEmptyInner exLibs = .ok exBI.input :=
  C10_empty_inner_mappings exArtEmptyInner exLibs exBI (by decide)

theorem resolveInner_missing (libraries : List (String × String)) (s : String) :
    ∀ (libs : List String) (acc : SourceToLibraryToAddress),
      (∃ ln ∈ libs, alookup libraries ln = none) →
      ∃ msg, resolveInner libraries s acc libs = .error msg := by
  intro libs
  induction libs with
  | nil => rintro acc ⟨ln, hln, _⟩; simp at hln
  | cons l rest ih =>
    rintro acc ⟨ln, hln, hnone⟩
    cases hl : alookup libraries l with
    | none =>
      exact ⟨"Could not find address for library " ++ l, by
        simp [resolveInner, hl]⟩
    | some addr =>
      rcases List.mem_cons.mp hln with hln | hln
      · subst hln
        exact absurd hl (by simp [hnone])
      · obtain ⟨msg, hmsg⟩ := ih _ ⟨ln, hln, hnone⟩
        exact ⟨msg, by simp [resolveInner, hl]; exact hmsg⟩

theorem resolveOuter_missing (libraries : List (String × String)) :
    ∀ (lr : List (String × List String)) (acc : SourceToLibraryToAddress),
      (∃ e ∈ lr, ∃ ln ∈ e.2, alookup libraries ln = none) →
      ∃ msg, resolveOuter libraries acc lr = .error msg := by
  intro lr
  induction lr with
  | nil => rintro acc ⟨e, he, _⟩; simp at he
  | cons hd rest ih =>
    rintro acc ⟨e, he, ln, hln, hnone⟩
    obtain ⟨s, libs⟩ := hd
    rcases List.mem_cons.mp he with he | he
    · obtain ⟨msg, hmsg⟩ := resolveInner_missing libraries s libs acc
        ⟨ln, by rw [he] at hln; exact hln, hnone⟩
      exact ⟨msg, by simp [resolveOuter, hmsg]⟩
    · cases hinner : resolveInner libraries s acc libs with
      | error msg => exact ⟨msg, by simp [resolveOuter, hinner]⟩
      | ok acc' =>
        obtain ⟨msg, hmsg⟩ := ih acc' ⟨e, he, ln, hln, hnone⟩
        exact ⟨msg, by simp [resolveOuter, hinner]; exact hmsg⟩

/-- **C6.** A library name that appears in the artifact's link references
but has no address in the deploy-time `libraries` mapping makes library
resolution fail with an internal-invariant error; no mapping (partial or
otherwise) is produced. -/
theorem C6_missing_library_errors (a : Artifact)
    (libraries : List (String × String)) (s0 : String) (libs0 : List String)
    (ln0 : String)
    (hmem : (s0, libs0) ∈ a.linkReferences) (hln : ln0 ∈ libs0)
    (hnone : alookup libraries ln0 = none) :
    ∃ msg, resolveLibraryInfoForArtifact a libraries = .error msg := by
  obtain ⟨msg, h⟩ :=
    resolveOuter_missing libraries a.linkReferences []
      ⟨(s0, libs0), hmem, ln0, hln, hnone⟩
  exact ⟨msg, by simp [resolveLibraryInfoForArtifact, h]⟩

/-- Witness for C6: `MathLib` is referenced but the libraries mapping is
empty. -/
theorem C6_missing_library_errors_witness :
    ∃ msg, resolveLibraryInfoForArtifact exArtLib [] = .error msg :=
  C6_missing_library_errors exArtLib [] "Lib.sol" ["MathLib"] "MathLib"
    (by decide) (by decide) (by decide)

theorem resolveInner_present (libraries : List (String × String)) (s : String)
    (addrOf : String → String) :
    ∀ (libs : List String) (pre post : SourceToLibraryToAddress)
      (inner : List (String × String)),
      (∀ e ∈ pre, e.1 ≠ s) →
      (∀ ln ∈ libs, ∀ p ∈ inner, p.1 ≠ ln) →
      libs.Nodup →
      (∀ ln ∈ libs, alookup libraries ln = some (addrOf ln)) →
      resolveInner libraries s (pre ++ (s, inner) :: post) libs =
        .ok (pre ++ (s, inner ++ libs.map (fun ln => (ln, addrOf ln))) :: post) := by
  intro libs
  induction libs with
  | nil =>
    intro pre post inner _ _ _ _
    simp [resolveInner]
  | cons l rest ih =>
    intro pre post inner hpre hinner hnd haddr
    have hsome : alookup (pre ++ (s, inner) :: post) s = some inner :=
      alookup_append_cons pre post s inner hpre
    have hlib : alookup libraries l = some (addrOf l) :=
      haddr l (List.mem_cons_self _ _)
    simp only [resolveInner, hsome, Option.isSome_some, if_pos, hlib]
    have hset : asetInner (pre ++ (s, inner) :: post) s l (addrOf l) =
        pre ++ (s, aset inner l (addrOf l)) :: post :=
      asetInner_append_cons pre post s l inner (addrOf l) hpre
    have habsent : ∀ p ∈ inner, p.1 ≠ l :=
      fun p hp => hinner l (List.mem_cons_self _ _) p hp
    have haset : aset inner l (addrOf l) = inner ++ [(l, addrOf l)] :=
      aset_absent inner l (addrOf l) habsent
    rw [hset, haset]
    have hnotrest : l ∉ rest := (List.nodup_cons.mp hnd).1
    have := ih pre post (inner ++ [(l, addrOf l)])
      hpre
      (by
        intro ln hln p hp
        rcases List.mem_append.mp hp with hp | hp
        · exact hinner ln (List.mem_cons_of_mem _ hln) p hp
        · have hpl : p = (l, addrOf l) := by simpa using hp
          rw [hpl]
          intro hcontra
          have hcl : l = ln := hcontra
          exact hnotrest (by rw [hcl]; exact hln))
      (List.nodup_cons.mp hnd).2
      (fun ln hln => haddr ln (List.mem_cons_of_mem _ hln))
    rw [this]
    simp

theorem resolveOuter_spec (libraries : List (String × String))
    (addrOf : String → String) :
    ∀ (lr : List (String × List String)) (acc : SourceToLibraryToAddress),
      (∀ e ∈ lr, ∀ p ∈ acc, p.1 ≠ e.1) →
      (lr.map Prod.fst).Nodup →
      (∀ e ∈ lr, e.2.Nodup) →
      (∀ e ∈ lr, ∀ ln ∈ e.2, alookup libraries ln = some (addrOf ln)) →
      resolveOuter libraries acc lr = .ok (acc ++ resolvedLibraries lr addrOf) := by
  intro lr
  induction lr with
  | nil =>
    intro acc _ _ _ _
    simp [resolveOuter, resolvedLibraries]
  | cons hd rest ih =>
    intro acc hdisj hkeys hnodup haddr
    obtain ⟨s, libs⟩ := hd
    have hkeys' : (rest.map Prod.fst).Nodup := (List.nodup_cons.mp hkeys).2
    have hsrest : s ∉ rest.map Prod.fst := (List.nodup_cons.mp hkeys).1
    cases libs with
    | nil =>
      simp only [resolveOuter, resolveInner]
      rw [ih acc
        (fun e he p hp => hdisj e (List.mem_cons_of_mem _ he) p hp)
        hkeys'
        (fun e he => hnodup e (List.mem_cons_of_mem _ he))
        (fun e he => haddr e (List.mem_cons_of_mem _ he))]
      simp [resolvedLibraries]
    | cons l rest2 =>
      have hdisjs : ∀ p ∈ acc, p.1 ≠ s :=
        fun p hp hcontra =>
          hdisj (s, l :: rest2) (List.mem_cons_self _ _) p hp hcontra
      have hnone : alookup acc s = none := alookup_eq_none acc s hdisjs
      have hlib : alookup libraries l = some (addrOf l) :=
        haddr (s, l :: rest2) (List.mem_cons_self _ _) l (List.mem_cons_self _ _)
      have hnd : (l :: rest2).Nodup := hnodup (s, l :: rest2) (List.mem_cons_self _ _)
      have hset' : asetInner (acc ++ [(s, ([] : List (String × String)))]) s l
          (addrOf l) = acc ++ [(s, [(l, addrOf l)])] :=
        asetInner_append_cons acc [] s l [] (addrOf l) hdisjs
      have hfirst : resolveInner libraries s acc (l :: rest2) =
          resolveInner libraries s (acc ++ [(s, [(l, addrOf l)])]) rest2 := by
        simp [resolveInner, hnone, hlib, hset']
      have hpresent := resolveInner_present libraries s addrOf rest2 acc []
        [(l, addrOf l)] hdisjs
        (by
          intro ln hln p hp
          have hpl : p = (l, addrOf l) := by simpa using hp
          rw [hpl]
          intro hcontra
          have hcl : l = ln := hcontra
          exact (List.nodup_cons.mp hnd).1 (by rw [hcl]; exact hln))
        (List.nodup_cons.mp hnd).2
        (fun ln hln =>
          haddr (s, l :: rest2) (List.mem_cons_self _ _) ln
            (List.mem_cons_of_mem _ hln))
      have hall : resolveInner libraries s acc (l :: rest2) =
          .ok (acc ++ [(s, (l :: rest2).map (fun ln => (ln, addrOf ln)))]) := by
        rw [hfirst, hpresent]
        simp
      simp only [resolveOuter, hall]
      rw [ih (acc ++ [(s, (l :: rest2).map (fun ln => (ln, addrOf ln)))])
        (by
          intro e he p hp
          rcases List.mem_append.mp hp with hp | hp
          · exact hdisj e (List.mem_cons_of_mem _ he) p hp
          · have hp' : p = (s, (l :: rest2).map (fun ln => (ln, addrOf ln))) := by
              simpa using hp
            rw [hp']
            intro hcontra
            have hse : s = e.1 := hcontra
            exact hsrest (by rw [hse]; exact List.mem_map_of_mem Prod.fst he))
        hkeys'
        (fun e he => hnodup e (List.mem_cons_of_mem _ he))
        (fun e he => haddr e (List.mem_cons_of_mem _ he))]
      simp [resolvedLibraries]

/-- **C5.** When every referenced library has a deploy-time address
(`addrOf`), library resolution yields exactly the mapping sending each
link-reference source path to its library names, each mapped to its address;
an artifact with no (effective) link references yields `null` and the
compiler input is returned untouched; otherwise the resolved mapping
overwrites any prior `settings.libraries`, replacing rather than merging
(the prior value of `bi.input.settings.libraries` does not occur in the
result). -/
theorem C5_library_resolution (a : Artifact)
    (libraries : List (String × String)) (bi : BuildInfo)
    (addrOf : String → String)
    (hkeys : (a.linkReferences.map Prod.fst).Nodup)
    (hinner : ∀ e ∈ a.linkReferences, e.2.Nodup)
    (haddr : ∀ e ∈ a.linkReferences, ∀ ln ∈ e.2,
      alookup libraries ln = some (addrOf ln)) :
    (resolvedLibraries a.linkReferences addrOf = [] →
      resolveLibraryInfoForArtifact a libraries = .ok none ∧
      prepareInputBasedOn bi a libraries = .ok bi.input) ∧
    (resolvedLibraries a.linkReferences addrOf ≠ [] →
      resolveLibraryInfoForArtifact a libraries =
        .ok (some (resolvedLibraries a.linkReferences addrOf)) ∧
      prepareInputBasedOn bi a libraries =
        .ok { bi.input with
                settings := { bi.input.settings with
                                libraries :=
                                  some (resolvedLibraries a.linkReferences addrOf) } }) := by
  have houter := resolveOuter_spec libraries addrOf a.linkReferences []
    (by intro e _ p hp; simp at hp) hkeys hinner haddr
  rw [List.nil_append] at houter
  constructor
  · intro hempty
    rw [hempty] at houter
    constructor
    · simp [resolveLibraryInfoForArtifact, houter]
    · simp [prepareInputBasedOn, resolveLibraryInfoForArtifact, houter]
  · intro hne
    have hlen : (resolvedLibraries a.linkReferences addrOf).length ≠ 0 := by
      intro hc
      exact hne (List.length_eq_zero.mp hc)
    constructor
    · simp [resolveLibraryInfoForArtifact, houter, hlen]
    · simp [prepareInputBasedOn, resolveLibraryInfoForArtifact, houter, hlen]

/-- Witness for C5: the spec's example — link references
`{"Lib.sol": {"MathLib"}}` with libraries `{"MathLib": "0xabc"}` resolve to
`{"Lib.sol": {"MathLib": "0xabc"}}`, which replaces the (absent) prior
library settings. -/
theorem C5_library_resolution_witness :
    resolveLibraryInfoForArtifact exArtLib exLibs =
      .ok (some [("Lib.sol", [("MathLib", "0xabc")])]) ∧
    prepareInputBasedOn exBI exArtLib exLibs =
      .ok { exBI.input with
              settings := { exBI.input.settings with
                              libraries :=
                                some [("Lib.sol", [("MathLib", "0xabc")])] } } :=
  (C5_library_resolution exArtLib exLibs exBI (fun _ => "0xabc")
    (by decide) (by decide) (by decide)).2 (by decide)

theorem goMany_ok_each (rec : String → Except ClosureErr (List String)) :
    ∀ (l : List String) (rs : List (List String)), goMany rec l = .ok rs →
      ∀ i ∈ l, ∃ r, rec i = .ok r ∧ r ∈ rs := by
  intro l
  induction l with
  | nil => intro rs _ i hi; simp at hi
  | cons a rest ih =>
    intro rs h i hi
    cases h1 : rec a with
    | error e => rw [goMany, h1] at h; simp at h
    | ok r =>
      cases h2 : goMany rec rest with
      | error e => rw [goMany, h1, h2] at h; simp at h
      | ok rs' =>
        rw [goMany, h1, h2] at h
        have hrs : r :: rs' = rs := by simpa using h
        rcases List.mem_cons.mp hi with hi | hi
        · exact ⟨r, hi ▸ h1, hrs ▸ List.mem_cons_self _ _⟩
        · obtain ⟨r', hr', hmem⟩ := ih rs' h2 i hi
          exact ⟨r', hr', hrs ▸ List.mem_cons_of_mem _ hmem⟩

theorem goMany_ok_mem (rec : String → Except ClosureErr (List String)) :
    ∀ (l : List String) (rs : List (List String)), goMany rec l = .ok rs →
      ∀ r ∈ rs, ∃ i, i ∈ l ∧ rec i = .ok r := by
  intro l
  induction l with
  | nil =>
    intro rs h r hr
    rw [goMany] at h
    have : rs = [] := by simpa using h.symm
    rw [this] at hr
    simp at hr
  | cons a rest ih =>
    intro rs h r hr
    cases h1 : rec a with
    | error e => rw [goMany, h1] at h; simp at h
    | ok r0 =>
      cases h2 : goMany rec rest with
      | error e => rw [goMany, h1, h2] at h; simp at h
      | ok rs' =>
        rw [goMany, h1, h2] at h
        have hrs : r0 :: rs' = rs := by simpa using h
        rw [← hrs] at hr
        rcases List.mem_cons.mp hr with hr | hr
        · exact ⟨a, List.mem_cons_self _ _, hr ▸ h1⟩
        · obtain ⟨i, hi, hrec⟩ := ih rs' h2 r hr
          exact ⟨i, List.mem_cons_of_mem _ hi, hrec⟩

theorem closure_dom (ctx : VerifyContext) (bi : BuildInfo) :
    ∀ (fuel : Nat) (s : String) (closure : List String),
      getImportSourceNames ctx bi fuel s = .ok closure →
      s ∈ bi.input.sources.map Prod.fst ∧
      ∀ x ∈ closure, x ∈ bi.input.sources.map Prod.fst := by
  intro fuel
  induction fuel with
  | zero =>
    intro s closure h
    exact absurd h (by simp [getImportSourceNames])
  | succ n ih =>
    intro s closure h
    have h' : closureStep ctx bi (getImportSourceNames ctx bi n) s = .ok closure := h
    unfold closureStep at h'
    cases hl : alookup bi.input.sources s with
    | none => rw [hl] at h'; simp at h'
    | some content =>
      rw [hl] at h'
      simp only at h'
      cases hm : goMany (getImportSourceNames ctx bi n)
          ((ctx.analyze content).map (resolveImportSource s)) with
      | error e => rw [hm] at h'; simp at h'
      | ok rests =>
        rw [hm] at h'
        have hclo : (ctx.analyze content).map (resolveImportSource s) ++
            rests.flatten = closure := by simpa using h'
        constructor
        · exact (alookup_isSome_iff bi.input.sources s).mp (by rw [hl]; rfl)
        · intro x hx
          rw [← hclo] at hx
          rcases List.mem_append.mp hx with hx | hx
          · obtain ⟨r, hr, _⟩ := goMany_ok_each _ _ _ hm x hx
            exact (ih x r hr).1
          · obtain ⟨r, hrmem, hxr⟩ := List.mem_flatten.mp hx
            obtain ⟨i, _, hi⟩ := goMany_ok_mem _ _ _ hm r hrmem
            exact (ih i r hi).2 x hxr

theorem prepare_preserves_sources (bi : BuildInfo) (a : Artifact)
    (libs : List (String × String)) (inp : CompilerInput)
    (h : prepareInputBasedOn bi a libs = .ok inp) :
    inp.sources = bi.input.sources := by
  unfold prepareInputBasedOn at h
  cases hres : resolveLibraryInfoForArtifact a libs with
  | error e => rw [hres] at h; simp at h
  | ok o =>
    rw [hres] at h
    cases o with
    | none =>
      have : bi.input = inp := by simpa using h
      rw [← this]
    | some m =>
      have : { bi.input with
                 settings := { bi.input.settings with libraries := some m } } = inp := by
        simpa using h
      rw [← this]

/-- **C1.** When the per-record conversion succeeds, pruning with
`includeUnrelatedContracts = false` leaves in the serialized compiler
input's `sources` exactly the artifact's own source name together with its
transitive closure (every closure member necessarily being a key of `sources`,
since the traversal read its content); with `true` the full original
`sources` mapping is kept unmodified. -/
theorem C1_pruned_sources_exact (ctx : VerifyContext) (fuel : Nat)
    (loader : FileDeploymentLoader) (exState : DeploymentExecutionState)
    (bi : BuildInfo) (artifact : Artifact) (addr : String)
    (inp : CompilerInput) (closure : List String)
    (hb : readBuildInfo loader exState.artifactId = .ok bi)
    (ha : loadArtifact loader exState.artifactId = .ok artifact)
    (hres : exState.result = some (.success addr))
    (hprep : prepareInputBasedOn bi artifact exState.libraries = .ok inp)
    (hclo : getImportSourceNames ctx bi fuel artifact.sourceName = .ok closure) :
    (∃ vi, convertExStateToVerifyInfo ctx fuel loader exState false = .ok vi ∧
      ∀ s, s ∈ vi.sourceCode.sources.map Prod.fst ↔
        (s = artifact.sourceName ∨ s ∈ closure)) ∧
    (∃ vi, convertExStateToVerifyInfo ctx fuel loader exState true = .ok vi ∧
      vi.sourceCode.sources = bi.input.sources) := by
  have hsrc : inp.sources = bi.input.sources :=
    prepare_preserves_sources bi artifact exState.libraries inp hprep
  have hconv : ∀ (incl : Bool) (sc : CompilerInput),
      pruneSources ctx fuel bi artifact inp incl = .ok sc →
      convertExStateToVerifyInfo ctx fuel loader exState incl =
        .ok { address := addr
              compilerVersion := normalizeVersion bi.solcLongVersion
              sourceCode := sc
              name := artifact.sourceName ++ ":" ++ exState.contractName
              args := ctx.encodeDeploymentArguments artifact
                        exState.constructorArgs } := by
    intro incl sc hp
    simp only [convertExStateToVerifyInfo, hb, ha, hres, hprep, hp]
  have hpfalse : pruneSources ctx fuel bi artifact inp false =
      .ok { inp with
              sources := inp.sources.filter
                (fun kv => decide (kv.1 ∈ artifact.sourceName :: closure)) } := by
    simp [pruneSources, hclo]
  have hptrue : pruneSources ctx fuel bi artifact inp true = .ok inp := by
    simp [pruneSources]
  constructor
  · refine ⟨_, hconv false _ hpfalse, ?_⟩
    intro s
    show s ∈ (inp.sources.filter
        (fun kv => decide (kv.1 ∈ artifact.sourceName :: closure))).map Prod.fst ↔ _
    constructor
    · intro hmem
      simp only [List.mem_map, List.mem_filter, decide_eq_true_eq] at hmem
      obtain ⟨kv, ⟨_, hkvnames⟩, hkv1⟩ := hmem
      exact List.mem_cons.mp (by rw [← hkv1]; exact hkvnames)
    · intro hor
      have hdom := closure_dom ctx bi fuel artifact.sourceName closure hclo
      have hmemdom : s ∈ bi.input.sources.map Prod.fst := by
        rcases hor with hor | hor
        · rw [hor]; exact hdom.1
        · exact hdom.2 s hor
      rw [← hsrc] at hmemdom
      obtain ⟨kv, hkvmem, hkv1⟩ := List.mem_map.mp hmemdom
      refine List.mem_map.mpr ⟨kv, List.mem_filter.mpr ⟨hkvmem, ?_⟩, hkv1⟩
      simp only [decide_eq_true_eq]
      rw [hkv1]
      exact List.mem_cons.mpr hor
  · exact ⟨_, hconv true _ hptrue, hsrc⟩

/-- Witness for C1: pruning the five-source example build info for the
contract in `s/A.sol` keeps exactly `s/A.sol` and its closure
`{s/B.sol, C.sol, D/E.sol}`, dropping `Unrelated.sol`. -/
theorem C1_pruned_sources_exact_witness :
    ∃ vi, convertExStateToVerifyInfo exCtx 3 exLoader exRec1 false = .ok vi ∧
      ∀ s, s ∈ vi.sourceCode.sources.map Prod.fst ↔
        (s = exArt.sourceName ∨ s ∈ ["s/B.sol", "C.sol", "D/E.sol"]) :=
  (C1_pruned_sources_exact exCtx 3 exLoader exRec1 exBI exArt "0x1" exBI.input
    ["s/B.sol", "C.sol", "D/E.sol"] rfl rfl rfl rfl rfl).1

/-- **C2 (divergence of the source).** On the cyclic import graph
`A.sol ↔ B.sol` the unguarded recursion of `getImportSourceNames` exceeds
every fuel bound — and the failure is `outOfFuel`, never a missing source —
so the source recursion, which has no cycle guard, never terminates.  This
contradicts the claim that the closure computation terminates on cyclic
graphs. -/
theorem C2_cyclic_imports_diverge :
    ∀ fuel,
      getImportSourceNames cyclicCtx cyclicBI fuel "A.sol" = .error .outOfFuel := by
  have key : ∀ fuel,
      getImportSourceNames cyclicCtx cyclicBI fuel "A.sol" = .error .outOfFuel ∧
      getImportSourceNames cyclicCtx cyclicBI fuel "B.sol" = .error .outOfFuel := by
    intro fuel
    induction fuel with
    | zero => exact ⟨rfl, rfl⟩
    | succ n ih =>
      have hA : alookup cyclicBI.input.sources "A.sol" = some "cycA" := rfl
      have hB : alookup cyclicBI.input.sources "B.sol" = some "cycB" := rfl
      have haA : cyclicCtx.analyze "cycA" = ["B.sol"] := rfl
      have haB : cyclicCtx.analyze "cycB" = ["A.sol"] := rfl
      have hrA : resolveImportSource "A.sol" "B.sol" = "B.sol" := rfl
      have hrB : resolveImportSource "B.sol" "A.sol" = "A.sol" := rfl
      constructor
      · show closureStep cyclicCtx cyclicBI
            (getImportSourceNames cyclicCtx cyclicBI n) "A.sol" = .error .outOfFuel
        simp [closureStep, goMany, hA, haA, hrA, ih.2]
      · show closureStep cyclicCtx cyclicBI
            (getImportSourceNames cyclicCtx cyclicBI n) "B.sol" = .error .outOfFuel
        simp [closureStep, goMany, hB, haB, hrB, ih.1]
  exact fun fuel => (key fuel).1

theorem beq_char_false (x y : Char) (h : ¬y = x) : (x == y) = false := by
  cases hq : (x == y) with
  | false => rfl
  | true => exact absurd (eq_of_beq hq).symm h

theorem runVerification_ok_spec (ctx : VerifyContext) (fuel : Nat)
    (loader : FileDeploymentLoader) (cc : ChainConfig) (incl : Bool) :
    ∀ (l : List DeploymentExecutionState) (results : List VerifyResult),
      runVerification ctx fuel loader cc incl l = .ok results →
      results.length = l.length ∧
      ∀ i (hi : i < results.length) (hl : i < l.length),
        ∃ vi, convertExStateToVerifyInfo ctx fuel loader (l.get ⟨i, hl⟩) incl =
            .ok vi ∧ results.get ⟨i, hi⟩ = (cc, vi) := by
  intro l
  induction l with
  | nil =>
    intro results h
    have hres : ([] : List VerifyResult) = results := by
      simpa [runVerification] using h
    subst hres
    exact ⟨rfl, fun i hi _ => absurd hi (by simp)⟩
  | cons ex rest ih =>
    intro results h
    cases h1 : convertExStateToVerifyInfo ctx fuel loader ex incl with
    | error e => rw [runVerification, h1] at h; simp at h
    | ok vi =>
      cases h2 : runVerification ctx fuel loader cc incl rest with
      | error e => rw [runVerification, h1, h2] at h; simp at h
      | ok rs =>
        rw [runVerification, h1, h2] at h
        have hres : (cc, vi) :: rs = results := by simpa using h
        subst hres
        obtain ⟨hlen, hidx⟩ := ih rs h2
        refine ⟨by simp [hlen], ?_⟩
        intro i hi hl
        cases i with
        | zero => exact ⟨vi, h1, rfl⟩
        | succ n => exact hidx n (by simpa using hi) (by simpa using hl)

/-- **C9.** With at least one successful deployment record and all
conversions succeeding, the pipeline yields exactly one `VerifyResult` per
successful record, and the i-th yielded element is the conversion of the
i-th successful record in deployment-state order. -/
theorem C9_one_result_per_record_in_order (ctx : VerifyContext) (fuel : Nat)
    (builtinChains : List ChainConfig) (st : DeploymentState)
    (loader : FileDeploymentLoader) (customChains : List ChainConfig)
    (incl : Bool) (cc : ChainConfig) (results : List VerifyResult)
    (hne : successfulDeploymentRecords st ≠ [])
    (hchain : resolveChainConfig builtinChains st customChains = .ok cc)
    (hrun : runVerification ctx fuel loader cc incl
      (successfulDeploymentRecords st) = .ok results) :
    getVerificationInformation ctx fuel builtinChains (some st) loader
      customChains incl = .ok results ∧
    results.length = (successfulDeploymentRecords st).length ∧
    ∀ i (hi : i < results.length)
      (hl : i < (successfulDeploymentRecords st).length),
      ∃ vi, convertExStateToVerifyInfo ctx fuel loader
          ((successfulDeploymentRecords st).get ⟨i, hl⟩) incl = .ok vi ∧
        results.get ⟨i, hi⟩ = (cc, vi) := by
  obtain ⟨hlen, hidx⟩ :=
    runVerification_ok_spec ctx fuel loader cc incl _ results hrun
  refine ⟨?_, hlen, hidx⟩
  have hlenne : ¬(successfulDeploymentRecords st).length = 0 := fun hc =>
    hne (List.length_eq_zero.mp hc)
  simp [getVerificationInformation, hchain, hlenne, hrun]

/-- Witness for C9: the two successful records of `exStateTwo` (among a
failed one and a non-deployment one) yield their two results in state
order. -/
theorem C9_one_result_per_record_in_order_witness :
    getVerificationInformation exCtx 1 [exBuiltin] (some exStateTwo) exLoader
      [exCC] true = .ok [(exCC, exVI1), (exCC, exVI2)] ∧
    ([(exCC, exVI1), (exCC, exVI2)] : List VerifyResult).length =
      (successfulDeploymentRecords exStateTwo).length := by
  have h := C9_one_result_per_record_in_order exCtx 1 [exBuiltin] exStateTwo
    exLoader [exCC] true exCC [(exCC, exVI1), (exCC, exVI2)]
    (by decide) (by decide) (by decide)
  exact ⟨h.1, h.2.1⟩

/-- **C3.** Converting one record does not mutate what a later record's
conversion sees: the later record's build info is re-read from the immutable
persisted store, so its conversion result in a two-record run (sharing the
artifact id, hence the build info) equals its result when processed alone. -/
theorem C3_no_cross_record_mutation (ctx : VerifyContext) (fuel : Nat)
    (loader : FileDeploymentLoader) (cc : ChainConfig) (incl : Bool)
    (ex1 ex2 : DeploymentExecutionState) (r1 r2 : VerifyResult)
    (hshared : ex1.artifactId = ex2.artifactId)
    (hrun : runVerification ctx fuel loader cc incl [ex1, ex2] = .ok [r1, r2]) :
    readBuildInfo loader ex2.artifactId = readBuildInfo loader ex1.artifactId ∧
    convertExStateToVerifyInfo ctx fuel loader ex2 incl = .ok r2.2 ∧
    runVerification ctx fuel loader cc incl [ex2] = .ok [r2] := by
  cases h1 : convertExStateToVerifyInfo ctx fuel loader ex1 incl with
  | error e =>
    rw [runVerification, h1] at hrun
    exact absurd hrun (by simp)
  | ok v1 =>
    cases h2 : convertExStateToVerifyInfo ctx fuel loader ex2 incl with
    | error e =>
      rw [runVerification, h1, runVerification, h2] at hrun
      exact absurd hrun (by simp)
    | ok v2 =>
      rw [runVerification, h1, runVerification, h2, runVerification] at hrun
      have h' : [(cc, v1), (cc, v2)] = [r1, r2] := by simpa using hrun
      have e2 : (cc, v2) = r2 := (List.cons.inj (List.cons.inj h').2).1
      refine ⟨by rw [hshared], ?_, ?_⟩
      · rw [← e2]
      · simp [runVerification, h2, ← e2]

/-- Witness for C3: two successful records over the same artifact id
(`exRec1`, `exRec2`): the second record's conversion in the two-record run
equals its stand-alone conversion. -/
theorem C3_no_cross_record_mutation_witness :
    readBuildInfo exLoader exRec2.artifactId =
      readBuildInfo exLoader exRec1.artifactId ∧
    convertExStateToVerifyInfo exCtx 1 exLoader exRec2 true =
      .ok (exCC, exVI2).2 ∧
    runVerification exCtx 1 exLoader exCC true [exRec2] = .ok [(exCC, exVI2)] :=
  C3_no_cross_record_mutation exCtx 1 exLoader exCC true exRec1 exRec2
    (exCC, exVI1) (exCC, exVI2) rfl (by decide)

/-- **C7 counterexample.** Two independent failures of the claim.  First,
the source regex `/^\.\.?[\/|\\]/` contains `|` as a literal member of its
character class, so the import `.|B.sol` — which does not begin with `./`
or `../` in either path-separator style — is classified as relative and
resolved against the importing file's directory instead of being left
unchanged.  Second, resolution is not independent of the separator style of
the original import string: the backslash-style `.\B.sol` is classified
relative in both the claim's and the code's sense, but POSIX `path.join`
does not treat `\` as a separator, so the `.` segment survives joining and
only afterwards is the backslash rewritten to `/` — `A.sol` importing
`.\B.sol` resolves to `./B.sol`, while the forward-slash `./B.sol` resolves
to `B.sol`. -/
theorem C7_import_classification_counterexample :
    (testRelative ".|B.sol" = true ∧
     specRelative ".|B.sol" = false ∧
     resolveImportSource "dir/A.sol" ".|B.sol" = "dir/.|B.sol" ∧
     resolveImportSource "dir/A.sol" ".|B.sol" ≠ ".|B.sol") ∧
    (specRelative "./B.sol" = true ∧
     specRelative ".\\B.sol" = true ∧
     resolveImportSource "A.sol" "./B.sol" = "B.sol" ∧
     resolveImportSource "A.sol" ".\\B.sol" = "./B.sol" ∧
     resolveImportSource "A.sol" ".\\B.sol" ≠
       resolveImportSource "A.sol" "./B.sol") :=
  ⟨⟨by decide, by decide, by decide, by decide⟩,
   by decide, by decide, by decide, by decide, by decide⟩

/-- **C7 (amended).** The code classifies an import as relative exactly when
it begins with `.` or `..` followed by `/`, `\`, or `|`; non-relative
ones are left unchanged; and for forward-slash import strings — the
separator-style restriction forced by the second counterexample above —
the claim's example holds: `s/A.sol` imports `./B.sol`, which imports
`C.sol` and `../D/E.sol`, and the closure is `{s/B.sol, C.sol, D/E.sol}`
with normalized separators. -/
theorem C7_import_classification_amended :
    (∀ i, testRelative i = specRelativeAmended i) ∧
    (∀ s i, testRelative i = false → resolveImportSource s i = i) ∧
    getImportSourceNames exCtx exBI 3 "s/A.sol" =
      .ok ["s/B.sol", "C.sol", "D/E.sol"] := by
  refine ⟨?_, ?_, by decide⟩
  · intro i
    obtain ⟨data⟩ := i
    have h1 : ("./" : String).data = ['.', '/'] := rfl
    have h2 : (".|" : String).data = ['.', '|'] := rfl
    have h3 : (".\\" : String).data = ['.', '\\'] := rfl
    have h4 : ("../" : String).data = ['.', '.', '/'] := rfl
    have h5 : ("..|" : String).data = ['.', '.', '|'] := rfl
    have h6 : ("..\\" : String).data = ['.', '.', '\\'] := rfl
    rcases data with _ | ⟨a, rest⟩
    · decide
    rcases rest with _ | ⟨b, rest⟩
    · by_cases ha : a = '.'
      · subst ha
        decide
      · have q : ('.' == a) = false := beq_char_false '.' a ha
        simp [testRelative, specRelativeAmended, List.isPrefixOf,
          h1, h2, h3, h4, h5, h6, ha, q]
    by_cases ha : a = '.'
    · subst ha
      by_cases hb1 : b = '/'
      · subst hb1
        simp [testRelative, specRelativeAmended, List.isPrefixOf, relClass,
          h1, h2, h3, h4, h5, h6]
      by_cases hb2 : b = '|'
      · subst hb2
        simp [testRelative, specRelativeAmended, List.isPrefixOf, relClass,
          h1, h2, h3, h4, h5, h6]
      by_cases hb3 : b = '\\'
      · subst hb3
        simp [testRelative, specRelativeAmended, List.isPrefixOf, relClass,
          h1, h2, h3, h4, h5, h6]
      by_cases hb4 : b = '.'
      · subst hb4
        cases rest with
        | nil => decide
        | cons c t2 =>
          by_cases hc1 : c = '/'
          · subst hc1
            simp [testRelative, specRelativeAmended, List.isPrefixOf, relClass,
            h1, h2, h3, h4, h5, h6]
          by_cases hc2 : c = '|'
          · subst hc2
            simp [testRelative, specRelativeAmended, List.isPrefixOf, relClass,
            h1, h2, h3, h4, h5, h6]
          by_cases hc3 : c = '\\'
          · subst hc3
            simp [testRelative, specRelativeAmended, List.isPrefixOf, relClass,
            h1, h2, h3, h4, h5, h6]
          have q1 : ('/' == c) = false := beq_char_false '/' c hc1
          have q2 : ('|' == c) = false := beq_char_false '|' c hc2
          have q3 : ('\\' == c) = false := beq_char_false '\\' c hc3
          simp [testRelative, specRelativeAmended, List.isPrefixOf, relClass,
            h1, h2, h3, h4, h5, h6, hc1, hc2, hc3, q1, q2, q3]
      · have q0 : ('/' == b) = false := beq_char_false '/' b hb1
        have q1 : ('|' == b) = false := beq_char_false '|' b hb2
        have q2 : ('\\' == b) = false := beq_char_false '\\' b hb3
        have q3 : ('.' == b) = false := beq_char_false '.' b hb4
        simp [testRelative, specRelativeAmended, List.isPrefixOf, relClass,
          h1, h2, h3, h4, h5, h6, hb1, hb2, hb3, hb4, q0, q1, q2, q3]
    · have q : ('.' == a) = false := beq_char_false '.' a ha
      simp [testRelative, specRelativeAmended, List.isPrefixOf,
        h1, h2, h3, h4, h5, h6, ha, q]
  · intro s i h
    simp [resolveImportSource, h]

/-- Witness for the amended C7: a plain package-style import is classified
non-relative and left unchanged. -/
theorem C7_import_classification_amended_witness :
    testRelative "hardhat/console.sol" = false ∧
    resolveImportSource "dir/A.sol" "hardhat/console.sol" =
      "hardhat/console.sol" :=
  ⟨by decide,
    C7_import_classification_amended.2.1 "dir/A.sol" "hardhat/console.sol"
      (by decide)⟩

end IgnitionVerify
